import Mathlib

/-!
# Verification of the Salesforce CRM extractor core

Shallow embedding of the core algorithms of the `Salesforce-CRM-extractor`
repository, together with proofs about them:

* the label→value line-scanning extractor
  (`src/content/extractors/opportunity.js` `getByLabel`,
   `src/content/extractors/lead.js` `getLeadFieldByLabel`);
* the field normalizer `parseToISODate`
  (`src/content/extractors/opportunity.js`);
* the record store merger `mergeToStorage` and the extraction
  orchestration `handleExtractRequest` of the background service worker;
* the contact extractor's result shape
  (`src/content/extractors/contact.js`).

JavaScript strings are modelled by `String`, with the string operations
the code uses (`toLowerCase`, `trim`, `startsWith`) re-implemented over
the character list so that every definition evaluates inside the kernel.
Only the ASCII behaviour of `toLowerCase` is modelled; every label and
reserved word in the code is ASCII.
-/

namespace SFX

/-- ASCII lower-casing of a single character (model of the effect of
JavaScript `toLowerCase` on the ASCII labels used by the extractors). -/
def lowerChar (c : Char) : Char :=
  if 65 ≤ c.toNat ∧ c.toNat ≤ 90 then Char.ofNat (c.toNat + 32) else c

/-- Model of JavaScript `s.toLowerCase()` (ASCII range). -/
def toLowerStr (s : String) : String := String.mk (s.data.map lowerChar)

/-- The whitespace characters trimmed by JavaScript `trim` that can occur
in the extractor's inputs. -/
def isSpaceChar (c : Char) : Bool := c == ' ' || c == '\t' || c == '\n' || c == '\r'

/-- Model of JavaScript `s.trim()`. -/
def trimStr (s : String) : String :=
  String.mk (((s.data.dropWhile isSpaceChar).reverse.dropWhile isSpaceChar).reverse)

/-- Model of JavaScript `s.startsWith(pre)`. -/
def startsWithStr (s pre : String) : Bool := List.isPrefixOf pre.data s.data

/-! ## The label-value extractor

`lead.js` lines 70–100 (`getLeadFieldByLabel`), `contact.js` lines 70–100
(`getContactFieldByLabel`), `opportunity.js` lines 161–184 (`getByLabel`)
all run the same scan loop over the page's text lines; they differ only in
the reserved-label vocabulary and in whether a `partialMatch` flag exists
(`getByLabel` has none, i.e. always exact matching).  The common loop is
`scanForLabel`; each source function instantiates it below. -/

/-- One line matches the (already normalized) label: exact comparison of
the lower-cased line by default, `startsWith` when `partialMatch` is set
(`lead.js` lines 77–80). -/
def labelMatches (normLabel : String) (partialMatch : Bool) (line : String) : Bool :=
  if partialMatch then startsWithStr (toLowerStr line) normLabel
  else toLowerStr line == normLabel

/-- A candidate value is rejected when it case-insensitively equals a
member of the reserved-label list
(`commonLabels.some(l => value.toLowerCase() === l.toLowerCase())`). -/
def isReservedIn (reserved : List String) (value : String) : Bool :=
  reserved.any (fun l => toLowerStr value == toLowerStr l)

/-- The scan loop shared by the extractors (`lead.js` lines 76–96): walk
the lines in order; on a label match whose following line exists, is
truthy (non-empty) and is not reserved, return that following line;
otherwise keep scanning; return `none` when the loop ends. -/
def scanForLabel (reserved : List String) (normLabel : String) (partialMatch : Bool) :
    List String → Option String
  | [] => none
  | [_] => none
  | x :: y :: rest =>
    if labelMatches normLabel partialMatch x && y != "" && !(isReservedIn reserved y) then
      some y
    else
      scanForLabel reserved normLabel partialMatch (y :: rest)

/-- Reserved labels of the opportunity extractor
(`opportunity.js` line 173). -/
def oppCommonLabels : List String :=
  ["Account Name", "Close Date", "Amount", "Opportunity Owner", "Stage",
   "Follow", "New Case", "New Note", "Clone", "Edit"]

/-- `opportunity.js` lines 161–184, `getByLabel(labelText)`; the page's
text lines are passed explicitly (the source recomputes them from
`document.body.innerText` on every call). It has no partial-match flag:
matching is always exact. -/
def getByLabel (labelText : String) (lines : List String) : Option String :=
  scanForLabel oppCommonLabels (toLowerStr (trimStr labelText)) false lines

/-- Reserved labels of the lead extractor (`lead.js` lines 85–89). -/
def leadCommonLabels : List String :=
  ["Company", "Email", "Phone", "Lead Source", "Lead Status", "Lead Owner",
   "Title", "Name", "Address", "Follow", "New Case", "New Note", "Clone",
   "Convert", "Edit", "Delete", "Submit for Approval"]

/-- `lead.js` lines 70–100, `getLeadFieldByLabel(labelText, partialMatch)`. -/
def getLeadFieldByLabel (labelText : String) (partialMatch : Bool)
    (lines : List String) : Option String :=
  scanForLabel leadCommonLabels (toLowerStr (trimStr labelText)) partialMatch lines

/-- Declarative acceptance: position `i` of the line list carries the label
(per the matching mode) and is followed by an existing, non-empty,
non-reserved line — the situation in which the scan loop would stop at
`i` and return line `i+1`. -/
def acceptsAt (reserved : List String) (normLabel : String) (partialMatch : Bool)
    (lines : List String) (i : Nat) : Bool :=
  decide (i + 1 < lines.length) &&
    labelMatches normLabel partialMatch (lines.getD i "") &&
    (lines.getD (i + 1) "" != "") &&
    !(isReservedIn reserved (lines.getD (i + 1) ""))

theorem acceptsAt_nil (reserved : List String) (normLabel : String) (pm : Bool) (i : Nat) :
    acceptsAt reserved normLabel pm [] i = false := by
  simp [acceptsAt]

theorem acceptsAt_singleton (reserved : List String) (normLabel : String) (pm : Bool)
    (x : String) (i : Nat) : acceptsAt reserved normLabel pm [x] i = false := by
  simp [acceptsAt]

theorem acceptsAt_cons_succ (reserved : List String) (normLabel : String) (pm : Bool)
    (x : String) (xs : List String) (i : Nat) :
    acceptsAt reserved normLabel pm (x :: xs) (i + 1) = acceptsAt reserved normLabel pm xs i := by
  simp [acceptsAt, Nat.succ_lt_succ_iff]

theorem acceptsAt_cons_cons_zero (reserved : List String) (normLabel : String) (pm : Bool)
    (x y : String) (rest : List String) :
    acceptsAt reserved normLabel pm (x :: y :: rest) 0 =
      (labelMatches normLabel pm x && (y != "") && !(isReservedIn reserved y)) := by
  simp [acceptsAt]

/-- Characterization of the scan loop: it returns `some v` exactly when
some position accepts, the first accepting position `i` has `v` as the
line after it, and no earlier position accepts. -/
theorem scanForLabel_eq_some_iff (reserved : List String) (normLabel : String) (pm : Bool)
    (lines : List String) (v : String) :
    scanForLabel reserved normLabel pm lines = some v ↔
      ∃ i, acceptsAt reserved normLabel pm lines i = true ∧
        v = lines.getD (i + 1) "" ∧
        ∀ j, j < i → acceptsAt reserved normLabel pm lines j = false := by
  induction lines with
  | nil =>
    simp [scanForLabel, acceptsAt_nil]
  | cons x xs ih =>
    cases xs with
    | nil =>
      simp [scanForLabel, acceptsAt_singleton]
    | cons y rest =>
      by_cases hc : (labelMatches normLabel pm x && (y != "") && !(isReservedIn reserved y)) = true
      · rw [scanForLabel, if_pos hc]
        constructor
        · rintro ⟨rfl⟩
          exact ⟨0, by rw [acceptsAt_cons_cons_zero]; exact hc, rfl, by omega⟩
        · rintro ⟨i, hi, hv, hmin⟩
          cases i with
          | zero => simp [hv]
          | succ i =>
            exfalso
            have h0 := hmin 0 (Nat.succ_pos i)
            rw [acceptsAt_cons_cons_zero] at h0
            rw [h0] at hc
            exact Bool.false_ne_true hc
      · rw [scanForLabel, if_neg hc]
        rw [ih]
        constructor
        · rintro ⟨i, hi, hv, hmin⟩
          refine ⟨i + 1, ?_, ?_, ?_⟩
          · rwa [acceptsAt_cons_succ]
          · simpa using hv
          · intro j hj
            cases j with
            | zero =>
              rw [acceptsAt_cons_cons_zero]
              exact Bool.eq_false_iff.mpr (fun h => hc h)
            | succ j =>
              rw [acceptsAt_cons_succ]
              exact hmin j (Nat.lt_of_succ_lt_succ hj)
        · rintro ⟨i, hi, hv, hmin⟩
          cases i with
          | zero =>
            exfalso
            rw [acceptsAt_cons_cons_zero] at hi
            exact hc hi
          | succ i =>
            refine ⟨i, ?_, ?_, ?_⟩
            · rwa [acceptsAt_cons_succ] at hi
            · simpa using hv
            · intro j hj
              have := hmin (j + 1) (Nat.succ_lt_succ hj)
              rwa [acceptsAt_cons_succ] at this

/-- The scan loop returns `none` exactly when no position accepts. -/
theorem scanForLabel_eq_none_iff (reserved : List String) (normLabel : String) (pm : Bool)
    (lines : List String) :
    scanForLabel reserved normLabel pm lines = none ↔
      ∀ i, acceptsAt reserved normLabel pm lines i = false := by
  constructor
  · intro hnone i
    by_contra hacc
    rw [Bool.not_eq_false] at hacc
    have hex : ∃ i, acceptsAt reserved normLabel pm lines i = true := ⟨i, hacc⟩
    have hspec := Nat.find_spec hex
    have hmin : ∀ j, j < Nat.find hex → acceptsAt reserved normLabel pm lines j = false := by
      intro j hj
      have := Nat.find_min hex hj
      exact Bool.eq_false_iff.mpr this
    have : scanForLabel reserved normLabel pm lines = some (lines.getD (Nat.find hex + 1) "") :=
      (scanForLabel_eq_some_iff reserved normLabel pm lines _).mpr
        ⟨Nat.find hex, hspec, rfl, hmin⟩
    rw [hnone] at this
    exact Option.noConfusion this
  · intro hall
    cases hscan : scanForLabel reserved normLabel pm lines with
    | none => rfl
    | some v =>
      exfalso
      obtain ⟨i, hi, -, -⟩ :=
        (scanForLabel_eq_some_iff reserved normLabel pm lines v).mp hscan
      rw [hall i] at hi
      exact Bool.false_ne_true hi

/-- C1: for every line sequence and target label, the label-value extractor
(`getLeadFieldByLabel` with its partial flag, and the always-exact
`getByLabel`) scans lines in order, matching each line case-insensitively
against the label (exact by default, starts-with when partial is set), and
returns the line immediately following the first matched label whose
following line exists (is truthy) and is not in the entity's reserved-label
set; it returns null exactly when no such position exists — the label never
matches, or every candidate is rejected as reserved or missing. -/
theorem claim1_label_value_extractor (labelText : String) (pm : Bool) (lines : List String) :
    (∀ v, getLeadFieldByLabel labelText pm lines = some v ↔
      ∃ i, acceptsAt leadCommonLabels (toLowerStr (trimStr labelText)) pm lines i = true ∧
        v = lines.getD (i + 1) "" ∧
        ∀ j, j < i →
          acceptsAt leadCommonLabels (toLowerStr (trimStr labelText)) pm lines j = false) ∧
    (getLeadFieldByLabel labelText pm lines = none ↔
      ∀ i, acceptsAt leadCommonLabels (toLowerStr (trimStr labelText)) pm lines i = false) ∧
    (∀ v, getByLabel labelText lines = some v ↔
      ∃ i, acceptsAt oppCommonLabels (toLowerStr (trimStr labelText)) false lines i = true ∧
        v = lines.getD (i + 1) "" ∧
        ∀ j, j < i →
          acceptsAt oppCommonLabels (toLowerStr (trimStr labelText)) false lines j = false) ∧
    (getByLabel labelText lines = none ↔
      ∀ i, acceptsAt oppCommonLabels (toLowerStr (trimStr labelText)) false lines i = false) := by
  refine ⟨fun v => ?_, ?_, fun v => ?_, ?_⟩
  · exact scanForLabel_eq_some_iff _ _ _ _ _
  · exact scanForLabel_eq_none_iff _ _ _ _
  · exact scanForLabel_eq_some_iff _ _ _ _ _
  · exact scanForLabel_eq_none_iff _ _ _ _

/-- C2 is false on the code: in
`["Email", "Phone", "Email", "a@b.c"]` the line following the first
occurrence of the requested label `"Email"` is the reserved label
`"Phone"`, yet the extractor does not return null — the scan continues and
returns `"a@b.c"`, the value following the later duplicate occurrence. -/
theorem claim2_counterexample :
    isReservedIn leadCommonLabels "Phone" = true ∧
    labelMatches (toLowerStr (trimStr "Email")) false "Email" = true ∧
    getLeadFieldByLabel "Email" false ["Email", "Phone", "Email", "a@b.c"] = some "a@b.c" ∧
    getLeadFieldByLabel "Email" false ["Email", "Phone", "Email", "a@b.c"] ≠ none := by
  refine ⟨by decide, by decide, by decide, by decide⟩

/-- C2 (amended): when the line immediately following an occurrence of the
requested label is reserved, that candidate is rejected but the scan
continues past it: the extractor returns null exactly when no occurrence
of the label anywhere in the sequence is followed by an existing
non-reserved line, and whenever some occurrence does have a non-reserved
follower (even one later than the rejected candidate) the extractor
returns the follower of the first such occurrence. -/
theorem claim2_amended_rejected_candidate_scan_continues
    (labelText : String) (pm : Bool) (lines : List String) (i : Nat)
    (hmatch : labelMatches (toLowerStr (trimStr labelText)) pm (lines.getD i "") = true)
    (hres : isReservedIn leadCommonLabels (lines.getD (i + 1) "") = true) :
    (getLeadFieldByLabel labelText pm lines = none ↔
      ∀ j, acceptsAt leadCommonLabels (toLowerStr (trimStr labelText)) pm lines j = false) ∧
    (∀ j, acceptsAt leadCommonLabels (toLowerStr (trimStr labelText)) pm lines j = true →
      ∃ k, acceptsAt leadCommonLabels (toLowerStr (trimStr labelText)) pm lines k = true ∧
        (∀ j', j' < k →
          acceptsAt leadCommonLabels (toLowerStr (trimStr labelText)) pm lines j' = false) ∧
        getLeadFieldByLabel labelText pm lines = some (lines.getD (k + 1) "")) := by
  refine ⟨scanForLabel_eq_none_iff _ _ _ _, fun j hj => ?_⟩
  have hex : ∃ j, acceptsAt leadCommonLabels (toLowerStr (trimStr labelText)) pm lines j = true :=
    ⟨j, hj⟩
  refine ⟨Nat.find hex, Nat.find_spec hex, ?_, ?_⟩
  · intro j' hj'
    exact Bool.eq_false_iff.mpr (Nat.find_min hex hj')
  · exact (scanForLabel_eq_some_iff _ _ _ _ _).mpr
      ⟨Nat.find hex, Nat.find_spec hex, rfl,
        fun j' hj' => Bool.eq_false_iff.mpr (Nat.find_min hex hj')⟩

/-- Witness for the amended C2 at the counterexample input: position 0
matches `"Email"` and is followed by the reserved `"Phone"`, and the
extractor indeed returns the value following the later duplicate. -/
theorem claim2_amended_witness :
    labelMatches (toLowerStr (trimStr "Email")) false
        ((["Email", "Phone", "Email", "a@b.c"] : List String).getD 0 "") = true ∧
    isReservedIn leadCommonLabels
        ((["Email", "Phone", "Email", "a@b.c"] : List String).getD 1 "") = true ∧
    ((getLeadFieldByLabel "Email" false ["Email", "Phone", "Email", "a@b.c"] = none ↔
      ∀ j, acceptsAt leadCommonLabels (toLowerStr (trimStr "Email")) false
        ["Email", "Phone", "Email", "a@b.c"] j = false) ∧
    (∀ j, acceptsAt leadCommonLabels (toLowerStr (trimStr "Email")) false
        ["Email", "Phone", "Email", "a@b.c"] j = true →
      ∃ k, acceptsAt leadCommonLabels (toLowerStr (trimStr "Email")) false
          ["Email", "Phone", "Email", "a@b.c"] k = true ∧
        (∀ j', j' < k → acceptsAt leadCommonLabels (toLowerStr (trimStr "Email")) false
          ["Email", "Phone", "Email", "a@b.c"] j' = false) ∧
        getLeadFieldByLabel "Email" false ["Email", "Phone", "Email", "a@b.c"] =
          some ((["Email", "Phone", "Email", "a@b.c"] : List String).getD (k + 1) ""))) :=
  ⟨by decide, by decide,
    claim2_amended_rejected_candidate_scan_continues "Email" false
      ["Email", "Phone", "Email", "a@b.c"] 0 (by decide) (by decide)⟩

/-! ## The record store merger

`mergeToStorage` lives in the background service worker (embedded in
`README.md`, lines 291–331).  The persisted `salesforce_data` object is a
string-keyed map from partition names to record lists; it is modelled as a
total function `String → List Record` where an absent key is the empty
list (the code reads `data[collectionName] || []`, so the two are
indistinguishable to the merger). -/

/-- A field value inside a record's `data` mapping (string, number or
null; numbers are modelled as integers). -/
inductive FieldValue where
  | str (s : String)
  | num (n : Int)
  | null
  deriving DecidableEq, Repr

/-- An extracted record (`README.md` data format; assembled by each
extractor, e.g. `opportunity.js` lines 293–306). -/
structure Record where
  id : String
  objectType : String
  data : List (String × FieldValue)
  sourceUrl : String
  lastUpdated : Nat
  deriving DecidableEq, Repr

/-- The counters resolved by `mergeToStorage`
(`resolve({ inserted, updated, objectType })`). -/
structure MergeResult where
  inserted : Nat
  updated : Nat
  objectType : String
  deriving DecidableEq, Repr

/-- The persisted store: partition name → list of records. -/
def Store := String → List Record

/-- Model of JavaScript `Array.prototype.findIndex` (`none` for `-1`). -/
def findIndex (p : Record → Bool) : List Record → Option Nat
  | [] => none
  | r :: rest => if p r then some 0 else (findIndex p rest).map (· + 1)

/-- `record.objectType || 'opportunity'` (the empty string models a falsy
`objectType`). -/
def effectiveObjectType (record : Record) : String :=
  if record.objectType == "" then "opportunity" else record.objectType

/-- The partition-selection chain of `mergeToStorage`: `lead → leads`,
`contact → contacts`, `account → accounts`, anything else (including
`opportunity` and `task`) falls to the trailing `else` branch
`opportunities`. -/
def collectionNameFor (objectType : String) : String :=
  if objectType == "lead" then "leads"
  else if objectType == "contact" then "contacts"
  else if objectType == "account" then "accounts"
  else "opportunities"

/-- `mergeToStorage(record)` from the service worker: look up the
partition, find an existing entry with equal `id`; replace it in place
(`updated = 1`) or append the record (`inserted = 1`), and write the
partition back, leaving every other key of the stored object unchanged. -/
def mergeToStorage (store : Store) (record : Record) : Store × MergeResult :=
  let objectType := effectiveObjectType record
  let collectionName := collectionNameFor objectType
  let collection := store collectionName
  match findIndex (fun r => r.id == record.id) collection with
  | some i =>
    (fun k => if k == collectionName then collection.set i record else store k,
     { inserted := 0, updated := 1, objectType := objectType })
  | none =>
    (fun k => if k == collectionName then collection ++ [record] else store k,
     { inserted := 1, updated := 0, objectType := objectType })

theorem findIndex_eq_none_iff (p : Record → Bool) (l : List Record) :
    findIndex p l = none ↔ ∀ r ∈ l, p r = false := by
  induction l with
  | nil => simp [findIndex]
  | cons r rest ih =>
    by_cases hr : p r
    · simp [findIndex, hr]
    · simp only [findIndex, if_neg hr, Option.map_eq_none', ih, List.mem_cons]
      constructor
      · intro h x hx
        rcases hx with rfl | hx
        · exact Bool.eq_false_iff.mpr hr
        · exact h x hx
      · intro h x hx
        exact h x (Or.inr hx)

theorem findIndex_isSome_iff (p : Record → Bool) (l : List Record) :
    (findIndex p l).isSome = true ↔ ∃ r ∈ l, p r = true := by
  rw [Option.isSome_iff_ne_none, Ne, findIndex_eq_none_iff]
  push_neg
  constructor
  · rintro ⟨r, hr, hp⟩
    exact ⟨r, hr, Bool.not_eq_false _ |>.mp hp⟩
  · rintro ⟨r, hr, hp⟩
    exact ⟨r, hr, by simp [hp]⟩

theorem findIndex_eq_some (p : Record → Bool) (l : List Record) (i : Nat)
    (h : findIndex p l = some i) :
    ∃ hlen : i < l.length, p (l.get ⟨i, hlen⟩) = true := by
  induction l generalizing i with
  | nil => exact absurd h (by simp [findIndex])
  | cons r rest ih =>
    by_cases hr : p r
    · rw [findIndex, if_pos hr] at h
      injection h with h
      subst h
      exact ⟨by simp, hr⟩
    · rw [findIndex, if_neg hr] at h
      rw [Option.map_eq_some'] at h
      obtain ⟨j, hj, rfl⟩ := h
      obtain ⟨hlen, hp⟩ := ih j hj
      exact ⟨by simpa using Nat.succ_lt_succ hlen, by simpa using hp⟩

/-- Replacing position `i` by an element with the same projection value
leaves the projected list unchanged. -/
theorem map_id_set_eq (l : List Record) (i : Nat) (record : Record)
    (hlen : i < l.length) (hid : (l.get ⟨i, hlen⟩).id = record.id) :
    (l.set i record).map Record.id = l.map Record.id := by
  induction l generalizing i with
  | nil => simp at hlen
  | cons r rest ih =>
    cases i with
    | zero =>
      simp only [List.get] at hid
      simp [List.set, hid]
    | succ i =>
      simp only [List.length_cons] at hlen
      simp only [List.get] at hid
      simp [List.set, ih i (Nat.lt_of_succ_lt_succ hlen) hid]

theorem mem_set_self (l : List Record) (i : Nat) (a : Record) (h : i < l.length) :
    a ∈ l.set i a := by
  induction l generalizing i with
  | nil => simp at h
  | cons r rest ih =>
    cases i with
    | zero => simp [List.set]
    | succ i =>
      simp only [List.length_cons] at h
      simp [List.set, ih i (Nat.lt_of_succ_lt_succ h)]

/-- The merged record is a member of its target partition afterwards. -/
theorem mergeToStorage_mem (store : Store) (record : Record) :
    record ∈ (mergeToStorage store record).1 (collectionNameFor (effectiveObjectType record)) := by
  cases h : findIndex (fun r => r.id == record.id)
      (store (collectionNameFor (effectiveObjectType record))) with
  | some i =>
    obtain ⟨hlen, -⟩ := findIndex_eq_some _ _ _ h
    simp only [mergeToStorage, h, beq_self_eq_true, if_true]
    exact mem_set_self _ _ _ hlen
  | none =>
    simp [mergeToStorage, h]

/-- Every key other than the target partition is left unchanged. -/
theorem mergeToStorage_other (store : Store) (record : Record) (k : String)
    (hk : k ≠ collectionNameFor (effectiveObjectType record)) :
    (mergeToStorage store record).1 k = store k := by
  have hnb : ¬ ((k == collectionNameFor (effectiveObjectType record)) = true) := by
    simp [beq_eq_false_iff_ne.mpr hk]
  cases h : findIndex (fun r => r.id == record.id)
      (store (collectionNameFor (effectiveObjectType record))) with
  | some i =>
    simp only [mergeToStorage, h]
    rw [if_neg hnb]
  | none =>
    simp only [mergeToStorage, h]
    rw [if_neg hnb]

/-- The merger preserves uniqueness of `id` within every partition. -/
theorem mergeToStorage_nodup (store : Store) (record : Record)
    (huniq : ∀ k, ((store k).map Record.id).Nodup) (k : String) :
    (((mergeToStorage store record).1 k).map Record.id).Nodup := by
  by_cases hk : k = collectionNameFor (effectiveObjectType record)
  · subst hk
    cases h : findIndex (fun r => r.id == record.id)
        (store (collectionNameFor (effectiveObjectType record))) with
    | some i =>
      obtain ⟨hlen, hp⟩ := findIndex_eq_some _ _ _ h
      have hid : ((store (collectionNameFor (effectiveObjectType record))).get
          ⟨i, hlen⟩).id = record.id := by simpa using hp
      simp only [mergeToStorage, h, beq_self_eq_true, if_true]
      rw [map_id_set_eq _ _ _ hlen hid]
      exact huniq _
    | none =>
      have hnotin : record.id ∉
          (store (collectionNameFor (effectiveObjectType record))).map Record.id := by
        rw [List.mem_map]
        rintro ⟨r, hr, hrid⟩
        have := (findIndex_eq_none_iff _ _).mp h r hr
        rw [hrid] at this
        simp at this
      simp only [mergeToStorage, h, beq_self_eq_true, if_true, List.map_append,
        List.map_cons, List.map_nil]
      rw [List.nodup_append]
      refine ⟨huniq _, List.nodup_singleton _, fun a ha hb => ?_⟩
      simp only [List.mem_singleton] at hb
      subst hb
      exact hnotin ha
  · rw [mergeToStorage_other store record k hk]
    exact huniq k

/-- C3: `mergeToStorage` looks up the record's partition (an absent key is
the empty list), scans for an entry with equal id and either replaces it
(`updated = 1`) or appends the record (`inserted = 1`): exactly one of the
two counters is 1, the updated counter is 1 exactly when an entry with the
record's id pre-existed, the merged record is in the partition afterwards,
and per-partition uniqueness of `id` is preserved. -/
theorem claim3_merge_contract (store : Store) (record : Record)
    (huniq : ∀ k, ((store k).map Record.id).Nodup) :
    (mergeToStorage store record).2.inserted + (mergeToStorage store record).2.updated = 1 ∧
    ((mergeToStorage store record).2.updated = 1 ↔
      ∃ r ∈ store (collectionNameFor (effectiveObjectType record)), r.id = record.id) ∧
    ((mergeToStorage store record).2.inserted = 1 ↔
      ¬ ∃ r ∈ store (collectionNameFor (effectiveObjectType record)), r.id = record.id) ∧
    record ∈ (mergeToStorage store record).1 (collectionNameFor (effectiveObjectType record)) ∧
    (∀ k, (((mergeToStorage store record).1 k).map Record.id).Nodup) := by
  have hexists : (findIndex (fun r => r.id == record.id)
        (store (collectionNameFor (effectiveObjectType record)))).isSome = true ↔
      ∃ r ∈ store (collectionNameFor (effectiveObjectType record)), r.id = record.id := by
    rw [findIndex_isSome_iff]
    constructor
    · rintro ⟨r, hr, hp⟩
      exact ⟨r, hr, by simpa using hp⟩
    · rintro ⟨r, hr, hp⟩
      exact ⟨r, hr, by simpa using hp⟩
  refine ⟨?_, ?_, ?_, mergeToStorage_mem store record, mergeToStorage_nodup store record huniq⟩
  all_goals
    cases h : findIndex (fun r => r.id == record.id)
        (store (collectionNameFor (effectiveObjectType record))) with
    | some i => ?_
    | none => ?_
  · simp [mergeToStorage, h]
  · simp [mergeToStorage, h]
  · simp only [mergeToStorage, h]
    rw [← hexists, h]
    simp
  · simp only [mergeToStorage, h]
    rw [← hexists, h]
    simp
  · simp only [mergeToStorage, h]
    rw [← hexists, h]
    simp
  · simp only [mergeToStorage, h]
    rw [← hexists, h]
    simp

/-- A store with no partitions yet (a fresh `salesforce_data` object). -/
def emptyStore : Store := fun _ => []

/-- A concrete opportunity record in the shape documented by the README. -/
def sampleOpportunity : Record :=
  { id := "006gK00000AwFtmQAF"
    objectType := "opportunity"
    data := [("name", FieldValue.str "test three"), ("amount", FieldValue.num 12562156)]
    sourceUrl := "https://example.lightning.force.com/lightning/r/Opportunity/006gK00000AwFtmQAF/view"
    lastUpdated := 1737131036000 }

/-- Witness for C3 at a concrete input: the empty store satisfies the
uniqueness hypothesis and the merge contract holds there. -/
theorem claim3_merge_contract_witness :
    (∀ k, ((emptyStore k).map Record.id).Nodup) ∧
    ((mergeToStorage emptyStore sampleOpportunity).2.inserted +
        (mergeToStorage emptyStore sampleOpportunity).2.updated = 1 ∧
    ((mergeToStorage emptyStore sampleOpportunity).2.updated = 1 ↔
      ∃ r ∈ emptyStore (collectionNameFor (effectiveObjectType sampleOpportunity)),
        r.id = sampleOpportunity.id) ∧
    ((mergeToStorage emptyStore sampleOpportunity).2.inserted = 1 ↔
      ¬ ∃ r ∈ emptyStore (collectionNameFor (effectiveObjectType sampleOpportunity)),
        r.id = sampleOpportunity.id) ∧
    sampleOpportunity ∈ (mergeToStorage emptyStore sampleOpportunity).1
      (collectionNameFor (effectiveObjectType sampleOpportunity)) ∧
    (∀ k, (((mergeToStorage emptyStore sampleOpportunity).1 k).map Record.id).Nodup)) :=
  ⟨fun _ => List.nodup_nil,
    claim3_merge_contract emptyStore sampleOpportunity (fun _ => List.nodup_nil)⟩

/-- Replacing the entry at `i` (whose id equals the new record's id) does
not change the sublist of entries carrying a different id. -/
theorem filter_set_ne (l : List Record) (i : Nat) (record : Record) (hlen : i < l.length)
    (hid : (l.get ⟨i, hlen⟩).id = record.id) :
    (l.set i record).filter (fun r => r.id != record.id) =
      l.filter (fun r => r.id != record.id) := by
  induction l generalizing i with
  | nil => simp at hlen
  | cons r rest ih =>
    cases i with
    | zero =>
      simp only [List.get] at hid
      simp [List.set, List.filter_cons, hid]
    | succ i =>
      simp only [List.length_cons] at hlen
      simp only [List.get] at hid
      simp [List.set, List.filter_cons, ih i (Nat.lt_of_succ_lt_succ hlen) hid]

/-- In a partition with unique ids, replacing the (unique) entry whose id
equals the record's id leaves exactly that record as the entries with this
id. -/
theorem filter_set_eq_of_nodup (l : List Record) (i : Nat) (record : Record)
    (hlen : i < l.length) (hid : (l.get ⟨i, hlen⟩).id = record.id)
    (hnd : (l.map Record.id).Nodup) :
    (l.set i record).filter (fun r => r.id == record.id) = [record] := by
  induction l generalizing i with
  | nil => simp at hlen
  | cons r rest ih =>
    cases i with
    | zero =>
      simp only [List.get] at hid
      have hnotin : r.id ∉ rest.map Record.id := (List.nodup_cons.mp (by simpa using hnd)).1
      have hrest : rest.filter (fun x => x.id == record.id) = [] := by
        rw [List.filter_eq_nil_iff]
        intro x hx
        simp only [bne_iff_ne, ne_eq, Bool.not_eq_true, beq_eq_false_iff_ne]
        intro hxid
        exact hnotin (List.mem_map.mpr ⟨x, hx, by rw [hxid, hid]⟩)
      simp [List.set, List.filter_cons, hrest]
    | succ i =>
      simp only [List.length_cons] at hlen
      simp only [List.get] at hid
      have hlen' : i < rest.length := Nat.lt_of_succ_lt_succ hlen
      have hnotin : r.id ∉ rest.map Record.id := (List.nodup_cons.mp (by simpa using hnd)).1
      have hhead : (r.id == record.id) = false := by
        rw [beq_eq_false_iff_ne]
        intro hr
        exact hnotin (List.mem_map.mpr ⟨rest.get ⟨i, hlen'⟩, rest.get_mem _ _, by rw [hid, hr]⟩)
      have hnd' : (rest.map Record.id).Nodup := (List.nodup_cons.mp (by simpa using hnd)).2
      simp [List.set, List.filter_cons, hhead, ih i hlen' hid hnd']

/-- C10: merge touches only the record's target partition — every other
partition is returned unchanged — and inside the target partition the
entries whose id differs from the record's id are unchanged and keep their
relative order. -/
theorem claim10_merge_frame (store : Store) (record : Record) :
    (∀ k, k ≠ collectionNameFor (effectiveObjectType record) →
      (mergeToStorage store record).1 k = store k) ∧
    ((mergeToStorage store record).1 (collectionNameFor (effectiveObjectType record))).filter
        (fun r => r.id != record.id) =
      (store (collectionNameFor (effectiveObjectType record))).filter
        (fun r => r.id != record.id) := by
  refine ⟨fun k hk => mergeToStorage_other store record k hk, ?_⟩
  cases h : findIndex (fun r => r.id == record.id)
      (store (collectionNameFor (effectiveObjectType record))) with
  | some i =>
    obtain ⟨hlen, hp⟩ := findIndex_eq_some _ _ _ h
    have hid : ((store (collectionNameFor (effectiveObjectType record))).get
        ⟨i, hlen⟩).id = record.id := by simpa using hp
    simp only [mergeToStorage, h, beq_self_eq_true, if_true]
    exact filter_set_ne _ _ _ hlen hid
  | none =>
    simp only [mergeToStorage, h, beq_self_eq_true, if_true]
    rw [List.filter_append]
    simp [List.filter_cons]

/-- Witness for C10 at a concrete input: merging an opportunity record
leaves the `leads` partition untouched and the differing-id entries of the
target partition unchanged. -/
theorem claim10_merge_frame_witness :
    ("leads" ≠ collectionNameFor (effectiveObjectType sampleOpportunity) ∧
      (mergeToStorage emptyStore sampleOpportunity).1 "leads" = emptyStore "leads") ∧
    ((mergeToStorage emptyStore sampleOpportunity).1
        (collectionNameFor (effectiveObjectType sampleOpportunity))).filter
        (fun r => r.id != sampleOpportunity.id) =
      (emptyStore (collectionNameFor (effectiveObjectType sampleOpportunity))).filter
        (fun r => r.id != sampleOpportunity.id) :=
  ⟨⟨by decide,
    (claim10_merge_frame emptyStore sampleOpportunity).1 "leads" (by decide)⟩,
    (claim10_merge_frame emptyStore sampleOpportunity).2⟩

/-- A concrete task record in the shape produced by the task extractor
(`part_005`, `extractTaskRecordDetail`, lines 136–150): `objectType` is
`"task"`. -/
def sampleTaskRecord : Record :=
  { id := "00TgK0000TaskRecQAF"
    objectType := "task"
    data := [("subject", FieldValue.str "Call"), ("status", FieldValue.str "Not Started")]
    sourceUrl := "https://example.lightning.force.com/lightning/r/Task/00TgK0000TaskRecQAF/view"
    lastUpdated := 0 }

/-- C5: evidence of a code bug.  The partition mapping handles
`lead → leads`, `contact → contacts`, `account → accounts` and sends
`opportunity` to `opportunities` via the trailing `else`, but `task`
records also fall through the `else` branch: a merged task record lands in
the `opportunities` partition and the `tasks` partition (which the popup
reads and which the claim requires) stays empty. -/
theorem claim5_task_record_misrouted :
    collectionNameFor "lead" = "leads" ∧
    collectionNameFor "contact" = "contacts" ∧
    collectionNameFor "account" = "accounts" ∧
    collectionNameFor "opportunity" = "opportunities" ∧
    collectionNameFor "task" = "opportunities" ∧
    collectionNameFor "task" ≠ "tasks" ∧
    (mergeToStorage emptyStore sampleTaskRecord).1 "tasks" = [] ∧
    (mergeToStorage emptyStore sampleTaskRecord).1 "opportunities" = [sampleTaskRecord] := by
  refine ⟨by decide, by decide, by decide, by decide, by decide, by decide, by decide, by decide⟩

/-- C4: merging `R` then `R'` with the same id and objectType yields
`{inserted := 0, updated := 1}` on the second call and leaves the target
partition with exactly one entry for that id, the whole of which (data
included) is `R'` — a full replacement, not a field-wise union. -/
theorem claim4_merge_full_replacement (store : Store) (R R' : Record)
    (hid : R'.id = R.id) (hty : R'.objectType = R.objectType)
    (huniq : ∀ k, ((store k).map Record.id).Nodup) :
    (mergeToStorage (mergeToStorage store R).1 R').2.inserted = 0 ∧
    (mergeToStorage (mergeToStorage store R).1 R').2.updated = 1 ∧
    ((mergeToStorage (mergeToStorage store R).1 R').1
        (collectionNameFor (effectiveObjectType R'))).filter
      (fun r => r.id == R'.id) = [R'] := by
  have hcn : collectionNameFor (effectiveObjectType R') =
      collectionNameFor (effectiveObjectType R) := by
    unfold effectiveObjectType
    rw [hty]
  have hmem : R ∈ (mergeToStorage store R).1 (collectionNameFor (effectiveObjectType R')) := by
    rw [hcn]
    exact mergeToStorage_mem store R
  have hnd1 : ∀ k, (((mergeToStorage store R).1 k).map Record.id).Nodup :=
    mergeToStorage_nodup store R huniq
  generalize hgen : (mergeToStorage store R).1 = s1 at hmem hnd1 ⊢
  have hsome : (findIndex (fun r => r.id == R'.id)
      (s1 (collectionNameFor (effectiveObjectType R')))).isSome = true := by
    rw [findIndex_isSome_iff]
    exact ⟨R, hmem, by rw [hid, beq_self_eq_true]⟩
  obtain ⟨i, h⟩ := Option.isSome_iff_exists.mp hsome
  obtain ⟨hlen, hp⟩ := findIndex_eq_some _ _ _ h
  have hidi : ((s1 (collectionNameFor (effectiveObjectType R'))).get
      ⟨i, hlen⟩).id = R'.id := by simpa using hp
  refine ⟨?_, ?_, ?_⟩
  · simp [mergeToStorage, h]
  · simp [mergeToStorage, h]
  · simp only [mergeToStorage, h, beq_self_eq_true, if_true]
    exact filter_set_eq_of_nodup _ _ _ hlen hidi (hnd1 _)

/-- A re-extraction of the same opportunity with different data. -/
def sampleOpportunityV2 : Record :=
  { id := "006gK00000AwFtmQAF"
    objectType := "opportunity"
    data := [("name", FieldValue.str "renamed deal"), ("amount", FieldValue.null)]
    sourceUrl := "https://example.lightning.force.com/lightning/r/Opportunity/006gK00000AwFtmQAF/view"
    lastUpdated := 1737131099000 }

/-- Witness for C4 at a concrete input: insert then update of the same id
leaves exactly the second record. -/
theorem claim4_merge_full_replacement_witness :
    sampleOpportunityV2.id = sampleOpportunity.id ∧
    sampleOpportunityV2.objectType = sampleOpportunity.objectType ∧
    (∀ k, ((emptyStore k).map Record.id).Nodup) ∧
    ((mergeToStorage (mergeToStorage emptyStore sampleOpportunity).1
        sampleOpportunityV2).2.inserted = 0 ∧
    (mergeToStorage (mergeToStorage emptyStore sampleOpportunity).1
        sampleOpportunityV2).2.updated = 1 ∧
    ((mergeToStorage (mergeToStorage emptyStore sampleOpportunity).1 sampleOpportunityV2).1
        (collectionNameFor (effectiveObjectType sampleOpportunityV2))).filter
      (fun r => r.id == sampleOpportunityV2.id) = [sampleOpportunityV2]) :=
  ⟨rfl, rfl, fun _ => List.nodup_nil,
    claim4_merge_full_replacement emptyStore sampleOpportunity sampleOpportunityV2
      rfl rfl (fun _ => List.nodup_nil)⟩

/-! ## The extraction orchestration of the service worker

`handleExtractRequest` (README-embedded service worker) is an async
control flow over the environment's nondeterminism: the active tab, ping
responses, injection success, the outcome of each `sendExtractionRequest`
call and each `generateUUID` call.  These external effects are packaged
into an `Env`, and the handler is embedded as a pure function that returns
both the response it sends and a trace of the effectful calls it made
(handshakes run, request ids dispatched, payloads handed to
`mergeToStorage`).  Payloads travel as dynamic JSON-like values. -/

/-- A JSON-ish runtime value, for payloads whose shape is not statically
known (`null` also stands for JavaScript's `undefined`). -/
inductive JVal where
  | null
  | bool (b : Bool)
  | num (n : Int)
  | str (s : String)
  | arr (elems : List JVal)
  | obj (fields : List (String × JVal))

/-- First field with the given key, JavaScript property lookup on an
object (yields `null` for a missing key or a non-object receiver). -/
def jgetFields : List (String × JVal) → String → JVal
  | [], _ => .null
  | (k, v) :: rest, key => if k == key then v else jgetFields rest key

/-- `payload.key` — JavaScript property access. -/
def jget : JVal → String → JVal
  | .obj fields, key => jgetFields fields key
  | _, _ => .null

/-- JavaScript truthiness of a value. -/
def truthy : JVal → Bool
  | .null => false
  | .bool b => b
  | .num n => n != 0
  | .str s => s != ""
  | .arr _ => true
  | .obj _ => true

/-- The payload validation of `handleExtractRequest`:
`!payload || !payload.id || !payload.data` — presence plus truthiness of
the `id` and `data` fields. -/
def payloadValid (payload : JVal) : Bool :=
  truthy payload && truthy (jget payload "id") && truthy (jget payload "data")

/-- `contact.js` line 154: `extractContactRecordDetail` resolves to the
wrapper `{ record, relatedRecords: [] }` rather than to the record itself;
`content-main.js` lines 219–223 forward this value unchanged as the
message payload. -/
def extractContactResult (record : JVal) : JVal :=
  .obj [("record", record), ("relatedRecords", .arr [])]

/-- Scan the characters after `https://` for the host-suffix pattern:
`[^/]*` followed by the literal suffix (the body of the service worker's
`SALESFORCE_PATTERNS` regular expressions). -/
def hostScan (suffix : List Char) : List Char → Bool
  | [] => suffix == []
  | c :: cs => List.isPrefixOf suffix (c :: cs) || (c != '/' && hostScan suffix cs)

/-- One pattern of `SALESFORCE_PATTERNS`: `^https:\/\/[^/]*<suffix>`. -/
def testHttpsHost (url : String) (suffix : List Char) : Bool :=
  List.isPrefixOf "https://".data url.data && hostScan suffix (url.data.drop 8)

/-- `isSalesforceUrl(url)`: falsy url is rejected, otherwise either
Salesforce host pattern may match. -/
def isSalesforceUrl (url : String) : Bool :=
  if url == "" then false
  else testHttpsHost url ".lightning.force.com/".data ||
    testHttpsHost url ".salesforce.com/".data

/-- Outcome of one `sendExtractionRequest` call: the resolved object is
either `{success:true, payload}` or `{success:false, reason}` (reason one
of `TIMEOUT`, `EXTRACTION_ERROR`, `SEND_FAILED`). -/
inductive DispatchResult where
  | success (payload : JVal)
  | failure (reason : String)

/-- `!result.success && result.reason === 'TIMEOUT'`. -/
def isTimeoutFailure : DispatchResult → Bool
  | .failure reason => reason == "TIMEOUT"
  | .success _ => false

/-- Outcome of `performHandshake`. -/
inductive HandshakeOutcome where
  | success
  | failure (reason : String)

/-- The environment: all external nondeterminism consumed by one
invocation of `handleExtractRequest`.  `pingResults n` is the outcome of
the `n`-th `pingTab` call, `dispatchResults n` of the `n`-th
`sendExtractionRequest` call, `uuid n` of the `n`-th `generateUUID`
call. -/
structure Env where
  tabUrl : Option String
  pingResults : Nat → Bool
  injectResult : Bool
  dispatchResults : Nat → DispatchResult
  uuid : Nat → String

/-- The response sent back to the popup (`ok` carries the validated
payload; the merge counters are modelled by `mergeToStorage` above and by
the trace's `merged` list). -/
inductive SWResponse where
  | ok (record : JVal)
  | error (reason : String)

/-- Trace of the effectful calls made by one invocation: number of
`performHandshake` runs, the request ids passed to successive
`sendExtractionRequest` calls, and the payloads passed to
`mergeToStorage`. -/
structure Trace where
  handshakes : Nat
  dispatches : List String
  merged : List JVal

/-- `performHandshake`: first `pingTab`; if no PONG, inject the content
script (failing with `INJECTION_FAILED` when installation fails), wait,
and ping exactly once more (`NO_CONTENT_SCRIPT` when still silent). -/
def performHandshake (env : Env) : HandshakeOutcome :=
  if env.pingResults 0 then .success
  else if !env.injectResult then .failure "INJECTION_FAILED"
  else if env.pingResults 1 then .success
  else .failure "NO_CONTENT_SCRIPT"

/-- `handleExtractRequest`: resolve the active tab, validate its URL,
handshake, dispatch with a fresh request id, retry exactly once if and
only if the failure reason is `TIMEOUT` (fresh id, no re-handshake),
validate the payload (`INVALID_PAYLOAD` on failure), else merge and
respond ok. -/
def handleExtractRequest (env : Env) : SWResponse × Trace :=
  match env.tabUrl with
  | none => (.error "NO_ACTIVE_TAB", ⟨0, [], []⟩)
  | some url =>
    if !(isSalesforceUrl url) then (.error "NOT_SALESFORCE", ⟨0, [], []⟩)
    else
      match performHandshake env with
      | .failure reason => (.error reason, ⟨1, [], []⟩)
      | .success =>
        let result0 := env.dispatchResults 0
        let retry := isTimeoutFailure result0
        let result := if retry then env.dispatchResults 1 else result0
        let ids := if retry then [env.uuid 0, env.uuid 1] else [env.uuid 0]
        match result with
        | .failure reason => (.error reason, ⟨1, ids, []⟩)
        | .success payload =>
          if !(payloadValid payload) then (.error "INVALID_PAYLOAD", ⟨1, ids, []⟩)
          else (.ok payload, ⟨1, ids, [payload]⟩)

/-- C6: after a successful handshake, a first dispatch failing with reason
`TIMEOUT` — and only that reason — is retried exactly once, with the next
freshly generated correlation identifier and without re-running the
handshake (the trace holds one handshake and exactly the two generated
ids); if the retry also fails (any reason, `TIMEOUT` included) the
invocation terminates with that error and no further dispatch; a first
dispatch failing with any other reason terminates immediately with a
single dispatched id and no retry. -/
theorem claim6_timeout_single_retry (env : Env) (url : String)
    (htab : env.tabUrl = some url) (hurl : isSalesforceUrl url = true)
    (hhs : performHandshake env = .success) :
    (env.dispatchResults 0 = .failure "TIMEOUT" →
      (handleExtractRequest env).2.handshakes = 1 ∧
      (handleExtractRequest env).2.dispatches = [env.uuid 0, env.uuid 1] ∧
      (∀ r, env.dispatchResults 1 = .failure r →
        (handleExtractRequest env).1 = .error r)) ∧
    (∀ r, env.dispatchResults 0 = .failure r → r ≠ "TIMEOUT" →
      (handleExtractRequest env).2.handshakes = 1 ∧
      (handleExtractRequest env).2.dispatches = [env.uuid 0] ∧
      (handleExtractRequest env).1 = .error r) := by
  constructor
  · intro h0
    cases h1 : env.dispatchResults 1 with
    | success p =>
      by_cases hv : payloadValid p = true
      · refine ⟨?_, ?_, ?_⟩ <;>
          simp [handleExtractRequest, htab, hurl, hhs, h0, h1, isTimeoutFailure, hv]
      · rw [Bool.not_eq_true] at hv
        refine ⟨?_, ?_, ?_⟩ <;>
          simp [handleExtractRequest, htab, hurl, hhs, h0, h1, isTimeoutFailure, hv]
    | failure r' =>
      refine ⟨?_, ?_, ?_⟩ <;>
        simp [handleExtractRequest, htab, hurl, hhs, h0, h1, isTimeoutFailure]
  · intro r h0 hr
    have hto : isTimeoutFailure (env.dispatchResults 0) = false := by
      rw [h0]
      simpa [isTimeoutFailure] using hr
    refine ⟨?_, ?_, ?_⟩ <;>
      simp [handleExtractRequest, htab, hurl, hhs, h0, hto, isTimeoutFailure, hr]

/-- A Salesforce-shaped URL on which the embedded pattern matcher
evaluates to true, for witnesses. -/
def goodUrl : String :=
  "https://org.lightning.force.com/lightning/r/Opportunity/006gK00000AwFtmQAF/view"

/-- Environment for the C6 witness: handshake answers on the first ping,
both dispatch attempts time out. -/
def envTimeoutTwice : Env :=
  { tabUrl := some goodUrl
    pingResults := fun _ => true
    injectResult := true
    dispatchResults := fun _ => .failure "TIMEOUT"
    uuid := fun n => if n == 0 then "req-id-0" else "req-id-1" }

/-- Witness for C6 at a concrete environment: double timeout gives one
handshake, exactly two dispatched ids, and a terminal `TIMEOUT` error;
and a first failure with reason `EXTRACTION_ERROR` gives a single
dispatch (instantiated on a second environment below through the same
theorem would need a distinct witness, so only the timeout branch is
exercised here). -/
theorem claim6_timeout_single_retry_witness :
    envTimeoutTwice.tabUrl = some goodUrl ∧
    isSalesforceUrl goodUrl = true ∧
    performHandshake envTimeoutTwice = .success ∧
    ((envTimeoutTwice.dispatchResults 0 = .failure "TIMEOUT" →
      (handleExtractRequest envTimeoutTwice).2.handshakes = 1 ∧
      (handleExtractRequest envTimeoutTwice).2.dispatches =
        [envTimeoutTwice.uuid 0, envTimeoutTwice.uuid 1] ∧
      (∀ r, envTimeoutTwice.dispatchResults 1 = .failure r →
        (handleExtractRequest envTimeoutTwice).1 = .error r)) ∧
    (∀ r, envTimeoutTwice.dispatchResults 0 = .failure r → r ≠ "TIMEOUT" →
      (handleExtractRequest envTimeoutTwice).2.handshakes = 1 ∧
      (handleExtractRequest envTimeoutTwice).2.dispatches = [envTimeoutTwice.uuid 0] ∧
      (handleExtractRequest envTimeoutTwice).1 = .error r)) :=
  ⟨rfl, by decide, rfl,
    claim6_timeout_single_retry envTimeoutTwice goodUrl rfl (by decide) rfl⟩

/-- A payload whose `data` field is a non-empty string, not an object. -/
def payloadStringData : JVal :=
  .obj [("id", .str "006gK00000AwFtmQAF"), ("data", .str "not an object")]

/-- Environment in which the wire exchange succeeds at once with
`payloadStringData`. -/
def envStringData : Env :=
  { tabUrl := some goodUrl
    pingResults := fun _ => true
    injectResult := true
    dispatchResults := fun _ => .success payloadStringData
    uuid := fun _ => "req-id-0" }

/-- C7 is false as stated: the validation checks only truthiness of
`payload.data`, not that it is an object.  A payload whose `data` is the
non-empty string `"not an object"` fails the claim's "carry a data
object" requirement, yet the orchestrator does not answer
`INVALID_PAYLOAD` — it answers ok and merges the payload. -/
theorem claim7_counterexample :
    jget payloadStringData "data" = JVal.str "not an object" ∧
    (handleExtractRequest envStringData).1 = SWResponse.ok payloadStringData ∧
    (handleExtractRequest envStringData).1 ≠ SWResponse.error "INVALID_PAYLOAD" ∧
    (handleExtractRequest envStringData).2.merged = [payloadStringData] := by
  refine ⟨rfl, ?_, ?_, ?_⟩
  · simp [handleExtractRequest, envStringData, performHandshake, isTimeoutFailure,
      show isSalesforceUrl goodUrl = true by decide, payloadValid, payloadStringData,
      jget, jgetFields, truthy]
  · intro h
    rw [show (handleExtractRequest envStringData).1 = SWResponse.ok payloadStringData by
      simp [handleExtractRequest, envStringData, performHandshake, isTimeoutFailure,
        show isSalesforceUrl goodUrl = true by decide, payloadValid, payloadStringData,
        jget, jgetFields, truthy]] at h
    exact SWResponse.noConfusion h
  · simp [handleExtractRequest, envStringData, performHandshake, isTimeoutFailure,
      show isSalesforceUrl goodUrl = true by decide, payloadValid, payloadStringData,
      jget, jgetFields, truthy]

/-- C7 (amended): after a successful wire exchange the orchestrator
validates the payload for truthiness — the payload itself, its `id` field
and its `data` field must all be truthy (objecthood of `data` is not
checked) — and any payload failing this truthiness check ends the
invocation with failure reason `INVALID_PAYLOAD` and no merge into the
store, even though the exchange succeeded; this holds whether the
successful exchange was the first dispatch or the retry after a
timeout. -/
theorem claim7_amended_truthiness_validation (env : Env) (url : String) (p : JVal)
    (htab : env.tabUrl = some url) (hurl : isSalesforceUrl url = true)
    (hhs : performHandshake env = .success)
    (hp : payloadValid p = false) :
    (env.dispatchResults 0 = .success p →
      (handleExtractRequest env).1 = .error "INVALID_PAYLOAD" ∧
      (handleExtractRequest env).2.merged = []) ∧
    (env.dispatchResults 0 = .failure "TIMEOUT" → env.dispatchResults 1 = .success p →
      (handleExtractRequest env).1 = .error "INVALID_PAYLOAD" ∧
      (handleExtractRequest env).2.merged = []) := by
  constructor
  · intro h0
    constructor <;>
      simp [handleExtractRequest, htab, hurl, hhs, h0, isTimeoutFailure, hp]
  · intro h0 h1
    constructor <;>
      simp [handleExtractRequest, htab, hurl, hhs, h0, h1, isTimeoutFailure, hp]

/-- Environment in which the dispatch succeeds with a payload that is not
even truthy (`null`). -/
def envNullPayload : Env :=
  { tabUrl := some goodUrl
    pingResults := fun _ => true
    injectResult := true
    dispatchResults := fun _ => .success .null
    uuid := fun _ => "req-id-0" }

/-- Witness for the amended C7 at a concrete environment: a `null`
payload fails the truthiness validation and is downgraded to
`INVALID_PAYLOAD` with no merge. -/
theorem claim7_amended_truthiness_validation_witness :
    envNullPayload.tabUrl = some goodUrl ∧
    isSalesforceUrl goodUrl = true ∧
    performHandshake envNullPayload = .success ∧
    payloadValid .null = false ∧
    ((envNullPayload.dispatchResults 0 = .success .null →
      (handleExtractRequest envNullPayload).1 = .error "INVALID_PAYLOAD" ∧
      (handleExtractRequest envNullPayload).2.merged = []) ∧
    (envNullPayload.dispatchResults 0 = .failure "TIMEOUT" →
      envNullPayload.dispatchResults 1 = .success .null →
      (handleExtractRequest envNullPayload).1 = .error "INVALID_PAYLOAD" ∧
      (handleExtractRequest envNullPayload).2.merged = [])) :=
  ⟨rfl, by decide, rfl, rfl,
    claim7_amended_truthiness_validation envNullPayload goodUrl .null rfl (by decide) rfl rfl⟩

/-- C9: the contact executor resolves to the wrapper
`{record, relatedRecords}` rather than the record itself, so the payload
reaching the orchestrator has no top-level `id` or `data` field
(`jget` yields `null` for both); the structural validation therefore
always downgrades a successful contact extraction to `INVALID_PAYLOAD`,
and the extracted contact record is never merged into the store. -/
theorem claim9_contact_payload_always_invalid (rec : JVal) (env : Env) (url : String)
    (htab : env.tabUrl = some url) (hurl : isSalesforceUrl url = true)
    (hhs : performHandshake env = .success)
    (hd : env.dispatchResults 0 = .success (extractContactResult rec)) :
    jget (extractContactResult rec) "id" = JVal.null ∧
    jget (extractContactResult rec) "data" = JVal.null ∧
    payloadValid (extractContactResult rec) = false ∧
    (handleExtractRequest env).1 = .error "INVALID_PAYLOAD" ∧
    (handleExtractRequest env).2.merged = [] := by
  refine ⟨rfl, rfl, rfl, ?_, ?_⟩ <;>
    simp [handleExtractRequest, htab, hurl, hhs, hd, isTimeoutFailure,
      show payloadValid (extractContactResult rec) = false from rfl]

/-- Environment in which the dispatch succeeds with the contact wrapper
payload around a concrete record. -/
def envContactWrapper : Env :=
  { tabUrl := some goodUrl
    pingResults := fun _ => true
    injectResult := true
    dispatchResults := fun _ =>
      .success (extractContactResult (.obj [("id", .str "003gK000ContactQAF"),
        ("data", .obj [("name", .str "Jane Doe")])]))
    uuid := fun _ => "req-id-0" }

/-- Witness for C9 at a concrete record and environment. -/
theorem claim9_contact_payload_always_invalid_witness :
    envContactWrapper.tabUrl = some goodUrl ∧
    isSalesforceUrl goodUrl = true ∧
    performHandshake envContactWrapper = .success ∧
    envContactWrapper.dispatchResults 0 =
      .success (extractContactResult (.obj [("id", .str "003gK000ContactQAF"),
        ("data", .obj [("name", .str "Jane Doe")])])) ∧
    (jget (extractContactResult (.obj [("id", .str "003gK000ContactQAF"),
        ("data", .obj [("name", .str "Jane Doe")])])) "id" = JVal.null ∧
    jget (extractContactResult (.obj [("id", .str "003gK000ContactQAF"),
        ("data", .obj [("name", .str "Jane Doe")])])) "data" = JVal.null ∧
    payloadValid (extractContactResult (.obj [("id", .str "003gK000ContactQAF"),
        ("data", .obj [("name", .str "Jane Doe")])])) = false ∧
    (handleExtractRequest envContactWrapper).1 = .error "INVALID_PAYLOAD" ∧
    (handleExtractRequest envContactWrapper).2.merged = []) :=
  ⟨rfl, by decide, rfl, rfl,
    claim9_contact_payload_always_invalid
      (.obj [("id", .str "003gK000ContactQAF"), ("data", .obj [("name", .str "Jane Doe")])])
      envContactWrapper goodUrl rfl (by decide) rfl rfl⟩

/-! ## The date normalizer

`parseToISODate` (`opportunity.js` lines 223–237) matches the unanchored
regular expression `(\d{1,2})\/(\d{1,2})\/(\d{4})` against the input and,
on a match, re-renders the three captures as zero-padded `YYYY-MM-DD`;
otherwise the raw string passes through.  The regular expression engine is
embedded as an explicit leftmost scan with the greedy backtracking order
of the `{1,2}` quantifiers: at each start position month length 2 is tried
before 1, and for each month length day length 2 before 1. -/

/-- Consume exactly `n` digits (`\d{n}` at the current position). -/
def takeDigits : Nat → List Char → Option (List Char × List Char)
  | 0, cs => some ([], cs)
  | _ + 1, [] => none
  | n + 1, c :: cs =>
    if c.isDigit then (takeDigits n cs).map (fun p => (c :: p.1, p.2)) else none

/-- Consume a literal `/`. -/
def trySlash : List Char → Option (List Char)
  | [] => none
  | c :: cs => if c == '/' then some cs else none

/-- Try the date pattern at the current position with fixed month and day
capture lengths. -/
def tryMDYLen (lm ld : Nat) (cs : List Char) :
    Option (List Char × List Char × List Char) :=
  match takeDigits lm cs with
  | none => none
  | some (m, cs1) =>
    match trySlash cs1 with
    | none => none
    | some cs2 =>
      match takeDigits ld cs2 with
      | none => none
      | some (d, cs3) =>
        match trySlash cs3 with
        | none => none
        | some cs4 =>
          match takeDigits 4 cs4 with
          | none => none
          | some (y, _) => some (m, d, y)

/-- The pattern at one position, in the regular expression's greedy
backtracking order for the two `{1,2}` quantifiers. -/
def matchMDYHere (cs : List Char) : Option (List Char × List Char × List Char) :=
  match tryMDYLen 2 2 cs with
  | some r => some r
  | none =>
    match tryMDYLen 2 1 cs with
    | some r => some r
    | none =>
      match tryMDYLen 1 2 cs with
      | some r => some r
      | none => tryMDYLen 1 1 cs

/-- Leftmost match of the unanchored pattern. -/
def findMDY : List Char → Option (List Char × List Char × List Char)
  | [] => none
  | c :: cs =>
    match matchMDYHere (c :: cs) with
    | some r => some r
    | none => findMDY cs

/-- `capture.padStart(2, '0')`. -/
def padStart2 (s : List Char) : List Char :=
  if 2 ≤ s.length then s else List.replicate (2 - s.length) '0' ++ s

/-- `parseToISODate(dateStr)`: null on falsy input; on a pattern match,
the zero-padded `${year}-${month}-${day}` rendering; otherwise the raw
string passes through unchanged. -/
def parseToISODate (dateStr : String) : Option String :=
  if dateStr == "" then none
  else
    match findMDY dateStr.data with
    | some (m, d, y) => some (String.mk (y ++ '-' :: (padStart2 m ++ '-' :: padStart2 d)))
    | none => some dateStr

/-- Declarative reading of one match of the pattern starting at the head
of `cs`: a 1–2 digit month, a slash, a 1–2 digit day, a slash and a
4-digit year, followed by arbitrary text. -/
def mdyDecomp (cs m d y rest : List Char) : Prop :=
  cs = m ++ '/' :: (d ++ '/' :: (y ++ rest)) ∧
  1 ≤ m.length ∧ m.length ≤ 2 ∧ m.all Char.isDigit = true ∧
  1 ≤ d.length ∧ d.length ≤ 2 ∧ d.all Char.isDigit = true ∧
  y.length = 4 ∧ y.all Char.isDigit = true

/-- An `M/D/YYYY`-shaped substring starts at the head of `cs`. -/
def mdyShape (cs : List Char) : Prop := ∃ m d y rest, mdyDecomp cs m d y rest

theorem takeDigits_eq_some_iff (n : Nat) (cs m r : List Char) :
    takeDigits n cs = some (m, r) ↔
      cs = m ++ r ∧ m.length = n ∧ m.all Char.isDigit = true := by
  induction n generalizing cs m r with
  | zero =>
    constructor
    · intro h
      simp only [takeDigits, Option.some.injEq, Prod.mk.injEq] at h
      obtain ⟨rfl, rfl⟩ := h
      exact ⟨by simp, rfl, rfl⟩
    · rintro ⟨hcs, hlen, -⟩
      obtain rfl : m = [] := List.length_eq_zero.mp hlen
      simp only [List.nil_append] at hcs
      subst hcs
      rfl
  | succ n ih =>
    cases cs with
    | nil =>
      constructor
      · intro h
        exact absurd h (by simp [takeDigits])
      · rintro ⟨hcs, hlen, -⟩
        cases m with
        | nil => simp at hlen
        | cons a m' => exact List.noConfusion hcs
    | cons c cs =>
      by_cases hc : c.isDigit
      · rw [takeDigits, if_pos hc]
        simp only [Option.map_eq_some']
        constructor
        · rintro ⟨⟨m', r'⟩, htd, heq⟩
          have hm : c :: m' = m := congrArg Prod.fst heq
          have hr : r' = r := congrArg Prod.snd heq
          subst hm
          subst hr
          obtain ⟨hcs, hlen, hdig⟩ := (ih cs m' r').mp htd
          subst hcs
          refine ⟨rfl, by simp [hlen], ?_⟩
          simp only [List.all_cons, Bool.and_eq_true]
          exact ⟨hc, hdig⟩
        · rintro ⟨hcs, hlen, hdig⟩
          cases m with
          | nil => simp at hlen
          | cons a m' =>
            injection hcs with hac hcs'
            subst hac
            simp only [List.all_cons, Bool.and_eq_true] at hdig
            simp only [List.length_cons, Nat.succ.injEq] at hlen
            exact ⟨(m', r), (ih cs m' r).mpr ⟨hcs', hlen, hdig.2⟩, rfl⟩
      · rw [takeDigits, if_neg hc]
        constructor
        · intro h
          exact absurd h (by simp)
        · rintro ⟨hcs, hlen, hdig⟩
          cases m with
          | nil => simp at hlen
          | cons a m' =>
            injection hcs with hac hcs'
            subst hac
            simp only [List.all_cons, Bool.and_eq_true] at hdig
            exact absurd hdig.1 hc

theorem trySlash_eq_some_iff (cs r : List Char) :
    trySlash cs = some r ↔ cs = '/' :: r := by
  cases cs with
  | nil => simp [trySlash]
  | cons c cs' =>
    by_cases hc : c = '/'
    · subst hc
      simp [trySlash]
    · constructor
      · intro h
        simp only [trySlash] at h
        rw [if_neg (by simpa using hc)] at h
        exact absurd h (by simp)
      · intro h
        injection h with hc' hcs'
        exact absurd hc' hc

theorem tryMDYLen_eq_some_iff (lm ld : Nat) (cs m d y : List Char) :
    tryMDYLen lm ld cs = some (m, d, y) ↔
      ∃ rest, cs = m ++ '/' :: (d ++ '/' :: (y ++ rest)) ∧
        m.length = lm ∧ m.all Char.isDigit = true ∧
        d.length = ld ∧ d.all Char.isDigit = true ∧
        y.length = 4 ∧ y.all Char.isDigit = true := by
  constructor
  · intro h
    unfold tryMDYLen at h
    cases h1 : takeDigits lm cs with
    | none => rw [h1] at h; exact absurd h (by simp)
    | some p1 =>
      obtain ⟨m1, cs1⟩ := p1
      rw [h1] at h
      dsimp only at h
      cases h2 : trySlash cs1 with
      | none => rw [h2] at h; exact absurd h (by simp)
      | some cs2 =>
        rw [h2] at h
        dsimp only at h
        cases h3 : takeDigits ld cs2 with
        | none => rw [h3] at h; exact absurd h (by simp)
        | some p3 =>
          obtain ⟨d3, cs3⟩ := p3
          rw [h3] at h
          dsimp only at h
          cases h4 : trySlash cs3 with
          | none => rw [h4] at h; exact absurd h (by simp)
          | some cs4 =>
            rw [h4] at h
            dsimp only at h
            cases h5 : takeDigits 4 cs4 with
            | none => rw [h5] at h; exact absurd h (by simp)
            | some p5 =>
              obtain ⟨y5, rest⟩ := p5
              rw [h5] at h
              dsimp only at h
              injection h with h
              have hm : m1 = m := congrArg Prod.fst h
              have hdy' : (d3, y5) = (d, y) := congrArg Prod.snd h
              have hd : d3 = d := congrArg Prod.fst hdy'
              have hy : y5 = y := congrArg Prod.snd hdy'
              rw [hm] at h1
              rw [hd] at h3
              rw [hy] at h5
              obtain ⟨hcs, hlm, hdm⟩ := (takeDigits_eq_some_iff lm cs m cs1).mp h1
              have hsl1 : cs1 = '/' :: cs2 := (trySlash_eq_some_iff cs1 cs2).mp h2
              obtain ⟨hcs2, hld, hdd⟩ := (takeDigits_eq_some_iff ld cs2 d cs3).mp h3
              have hsl2 : cs3 = '/' :: cs4 := (trySlash_eq_some_iff cs3 cs4).mp h4
              obtain ⟨hcs4, hly, hdy⟩ := (takeDigits_eq_some_iff 4 cs4 y rest).mp h5
              refine ⟨rest, ?_, hlm, hdm, hld, hdd, hly, hdy⟩
              rw [hcs, hsl1, hcs2, hsl2, hcs4]
  · rintro ⟨rest, rfl, hlm, hdm, hld, hdd, hly, hdy⟩
    unfold tryMDYLen
    rw [(takeDigits_eq_some_iff lm _ m ('/' :: (d ++ '/' :: (y ++ rest)))).mpr
      ⟨rfl, hlm, hdm⟩]
    dsimp only
    rw [(trySlash_eq_some_iff _ (d ++ '/' :: (y ++ rest))).mpr rfl]
    dsimp only
    rw [(takeDigits_eq_some_iff ld _ d ('/' :: (y ++ rest))).mpr ⟨rfl, hld, hdd⟩]
    dsimp only
    rw [(trySlash_eq_some_iff _ (y ++ rest)).mpr rfl]
    dsimp only
    rw [(takeDigits_eq_some_iff 4 _ y rest).mpr ⟨rfl, hly, hdy⟩]

theorem matchMDYHere_eq_none_iff (cs : List Char) :
    matchMDYHere cs = none ↔
      tryMDYLen 2 2 cs = none ∧ tryMDYLen 2 1 cs = none ∧
      tryMDYLen 1 2 cs = none ∧ tryMDYLen 1 1 cs = none := by
  unfold matchMDYHere
  cases tryMDYLen 2 2 cs <;> cases tryMDYLen 2 1 cs <;>
    cases tryMDYLen 1 2 cs <;> cases tryMDYLen 1 1 cs <;> simp

/-- Soundness: a positional match yields a genuine decomposition. -/
theorem matchMDYHere_eq_some_decomp (cs m d y : List Char)
    (h : matchMDYHere cs = some (m, d, y)) : ∃ rest, mdyDecomp cs m d y rest := by
  have extract : ∀ lm ld, 1 ≤ lm → lm ≤ 2 → 1 ≤ ld → ld ≤ 2 →
      tryMDYLen lm ld cs = some (m, d, y) → ∃ rest, mdyDecomp cs m d y rest := by
    intro lm ld h1m h2m h1d h2d ht
    obtain ⟨rest, hcs, hlm, hdm, hld, hdd, hly, hdy⟩ :=
      (tryMDYLen_eq_some_iff lm ld cs m d y).mp ht
    exact ⟨rest, hcs, hlm ▸ h1m, hlm ▸ h2m, hdm, hld ▸ h1d, hld ▸ h2d, hdd, hly, hdy⟩
  unfold matchMDYHere at h
  cases h1 : tryMDYLen 2 2 cs with
  | some r =>
    rw [h1] at h
    dsimp only at h
    injection h with h
    subst h
    exact extract 2 2 (by omega) (by omega) (by omega) (by omega) h1
  | none =>
    rw [h1] at h
    dsimp only at h
    cases h2 : tryMDYLen 2 1 cs with
    | some r =>
      rw [h2] at h
      dsimp only at h
      injection h with h
      subst h
      exact extract 2 1 (by omega) (by omega) (by omega) (by omega) h2
    | none =>
      rw [h2] at h
      dsimp only at h
      cases h3 : tryMDYLen 1 2 cs with
      | some r =>
        rw [h3] at h
        dsimp only at h
        injection h with h
        subst h
        exact extract 1 2 (by omega) (by omega) (by omega) (by omega) h3
      | none =>
        rw [h3] at h
        dsimp only at h
        exact extract 1 1 (by omega) (by omega) (by omega) (by omega) h

/-- Completeness: where a decomposition exists, the positional matcher
succeeds. -/
theorem mdyShape_matchMDYHere_ne_none (cs : List Char) (h : mdyShape cs) :
    matchMDYHere cs ≠ none := by
  obtain ⟨m, d, y, rest, hcs, h1m, h2m, hdm, h1d, h2d, hdd, hly, hdy⟩ := h
  have ht : tryMDYLen m.length d.length cs = some (m, d, y) :=
    (tryMDYLen_eq_some_iff m.length d.length cs m d y).mpr
      ⟨rest, hcs, rfl, hdm, rfl, hdd, hly, hdy⟩
  intro hnone
  obtain ⟨hn22, hn21, hn12, hn11⟩ := (matchMDYHere_eq_none_iff cs).mp hnone
  have hm : m.length = 1 ∨ m.length = 2 := by omega
  have hd : d.length = 1 ∨ d.length = 2 := by omega
  rcases hm with hm | hm <;> rcases hd with hd | hd <;> rw [hm, hd] at ht
  · rw [hn11] at ht; exact Option.noConfusion ht
  · rw [hn12] at ht; exact Option.noConfusion ht
  · rw [hn21] at ht; exact Option.noConfusion ht
  · rw [hn22] at ht; exact Option.noConfusion ht

theorem mdyShape_nil : ¬ mdyShape ([] : List Char) := by
  rintro ⟨m, d, y, rest, hcs, h1m, -⟩
  cases m with
  | nil => exact List.noConfusion hcs
  | cons a m' => exact List.noConfusion hcs

theorem findMDY_eq_none_iff (cs : List Char) :
    findMDY cs = none ↔ ∀ i, ¬ mdyShape (cs.drop i) := by
  induction cs with
  | nil =>
    simp only [findMDY, true_iff]
    intro i
    rw [List.drop_nil]
    exact mdyShape_nil
  | cons c cs ih =>
    constructor
    · intro h i
      unfold findMDY at h
      cases hm : matchMDYHere (c :: cs) with
      | some r => rw [hm] at h; exact absurd h (by simp)
      | none =>
        rw [hm] at h
        dsimp only at h
        cases i with
        | zero =>
          intro hs
          exact mdyShape_matchMDYHere_ne_none _ hs hm
        | succ i =>
          simpa using (ih.mp h) i
    · intro h
      unfold findMDY
      cases hm : matchMDYHere (c :: cs) with
      | some r =>
        exfalso
        obtain ⟨m, d, y⟩ := r
        obtain ⟨rest, hdec⟩ := matchMDYHere_eq_some_decomp _ _ _ _ hm
        exact (h 0) ⟨m, d, y, rest, by simpa using hdec⟩
      | none =>
        dsimp only
        exact ih.mpr (fun i => by simpa using h (i + 1))

/-- The scan returns the leftmost position carrying a match. -/
theorem findMDY_some_leftmost (cs m d y : List Char)
    (h : findMDY cs = some (m, d, y)) :
    ∃ i rest, mdyDecomp (cs.drop i) m d y rest ∧
      ∀ j, j < i → ¬ mdyShape (cs.drop j) := by
  induction cs with
  | nil => exact absurd h (by simp [findMDY])
  | cons c cs ih =>
    unfold findMDY at h
    cases hm : matchMDYHere (c :: cs) with
    | some r =>
      rw [hm] at h
      dsimp only at h
      injection h with h
      subst h
      obtain ⟨rest, hdec⟩ := matchMDYHere_eq_some_decomp _ _ _ _ hm
      exact ⟨0, rest, by simpa using hdec, by omega⟩
    | none =>
      rw [hm] at h
      dsimp only at h
      obtain ⟨i, rest, hdec, hmin⟩ := ih h
      refine ⟨i + 1, rest, by simpa using hdec, ?_⟩
      intro j hj
      cases j with
      | zero =>
        intro hs
        exact mdyShape_matchMDYHere_ne_none _ (by simpa using hs) hm
      | succ j =>
        simpa using hmin j (Nat.lt_of_succ_lt_succ hj)

/-- Two digit runs each followed by a slash split a list identically. -/
theorem digitRun_slash_unique (m₁ : List Char) :
    ∀ (m₂ t₁ t₂ : List Char), m₁ ++ '/' :: t₁ = m₂ ++ '/' :: t₂ →
      m₁.all Char.isDigit = true → m₂.all Char.isDigit = true →
      m₁ = m₂ ∧ t₁ = t₂ := by
  induction m₁ with
  | nil =>
    intro m₂ t₁ t₂ heq h1 h2
    cases m₂ with
    | nil =>
      injection heq with hh ht
      exact ⟨rfl, ht⟩
    | cons b m₂' =>
      injection heq with hb hrest
      rw [← hb] at h2
      simp only [List.all_cons, Bool.and_eq_true] at h2
      exact absurd h2.1 (by decide)
  | cons a m₁' ih =>
    intro m₂ t₁ t₂ heq h1 h2
    cases m₂ with
    | nil =>
      injection heq with ha hrest
      rw [ha] at h1
      simp only [List.all_cons, Bool.and_eq_true] at h1
      exact absurd h1.1 (by decide)
    | cons b m₂' =>
      injection heq with hab hrest
      subst hab
      simp only [List.all_cons, Bool.and_eq_true] at h1 h2
      obtain ⟨hm, ht⟩ := ih m₂' t₁ t₂ hrest h1.2 h2.2
      exact ⟨by rw [hm], ht⟩

/-- At a fixed position the decomposition into month, day and year
captures is unique. -/
theorem mdyDecomp_unique (cs m₁ d₁ y₁ r₁ m₂ d₂ y₂ r₂ : List Char)
    (h1 : mdyDecomp cs m₁ d₁ y₁ r₁) (h2 : mdyDecomp cs m₂ d₂ y₂ r₂) :
    m₁ = m₂ ∧ d₁ = d₂ ∧ y₁ = y₂ := by
  obtain ⟨hcs1, -, -, hdm1, -, -, hdd1, hy1, -⟩ := h1
  obtain ⟨hcs2, -, -, hdm2, -, -, hdd2, hy2, -⟩ := h2
  rw [hcs1] at hcs2
  obtain ⟨hm, hrest⟩ := digitRun_slash_unique m₁ m₂ _ _ hcs2 hdm1 hdm2
  obtain ⟨hd, hrest2⟩ := digitRun_slash_unique d₁ d₂ _ _ hrest hdd1 hdd2
  exact ⟨hm, hd, (List.append_inj hrest2 (by rw [hy1, hy2])).1⟩

/-- C8 is false on one edge case: for the empty input string the
normalizer returns null (`if (!dateStr) return null`), not the raw string
unchanged as the claim's pass-through clause demands. -/
theorem claim8_counterexample :
    parseToISODate "" = none ∧ parseToISODate "" ≠ some "" := by
  refine ⟨rfl, ?_⟩
  intro h
  rw [show parseToISODate "" = none from rfl] at h
  exact Option.noConfusion h

/-- C8 (amended): for every non-empty input string the date normalizer
returns the zero-padded `YYYY-MM-DD` rendering of the leftmost
`M/D/YYYY`-shaped substring (1–2 digit month and day, 4-digit year) when
one is present, and otherwise returns the raw string unchanged rather than
rejecting it; the empty (falsy) input yields null instead.  In particular
`normalizeDate("3/7/2026") = "2026-03-07"` and
`normalizeDate("March 2026") = "March 2026"`. -/
theorem claim8_amended_date_normalizer (s : String) (hs : s ≠ "") :
    ((∀ i, ¬ mdyShape (s.data.drop i)) → parseToISODate s = some s) ∧
    (∀ i m d y rest, mdyDecomp (s.data.drop i) m d y rest →
      (∀ j, j < i → ¬ mdyShape (s.data.drop j)) →
      parseToISODate s =
        some (String.mk (y ++ '-' :: (padStart2 m ++ '-' :: padStart2 d)))) ∧
    parseToISODate "3/7/2026" = some "2026-03-07" ∧
    parseToISODate "March 2026" = some "March 2026" := by
  have hbeq : (s == "") = false := beq_eq_false_iff_ne.mpr hs
  refine ⟨?_, ?_, by decide, by decide⟩
  · intro hnone
    have hfm : findMDY s.data = none := (findMDY_eq_none_iff _).mpr hnone
    simp [parseToISODate, hbeq, hfm]
  · intro i m d y rest hdec hmin
    cases hfm : findMDY s.data with
    | none =>
      exact absurd ⟨m, d, y, rest, hdec⟩ ((findMDY_eq_none_iff _).mp hfm i)
    | some t =>
      obtain ⟨m', d', y'⟩ := t
      obtain ⟨i', rest', hdec', hmin'⟩ := findMDY_some_leftmost _ _ _ _ hfm
      have hii : i' = i := by
        by_contra hne
        rcases Nat.lt_or_ge i' i with hlt | hge
        · exact hmin i' hlt ⟨m', d', y', rest', hdec'⟩
        · exact hmin' i (lt_of_le_of_ne hge (Ne.symm hne)) ⟨m, d, y, rest, hdec⟩
      subst hii
      obtain ⟨hm, hd, hy⟩ := mdyDecomp_unique _ _ _ _ _ _ _ _ _ hdec' hdec
      subst hm
      subst hd
      subst hy
      simp [parseToISODate, hbeq, hfm]

/-- Witness for the amended C8 at the concrete input `"3/7/2026"`. -/
theorem claim8_amended_date_normalizer_witness :
    ("3/7/2026" : String) ≠ "" ∧
    (((∀ i, ¬ mdyShape (("3/7/2026" : String).data.drop i)) →
      parseToISODate "3/7/2026" = some "3/7/2026") ∧
    (∀ i m d y rest, mdyDecomp (("3/7/2026" : String).data.drop i) m d y rest →
      (∀ j, j < i → ¬ mdyShape (("3/7/2026" : String).data.drop j)) →
      parseToISODate "3/7/2026" =
        some (String.mk (y ++ '-' :: (padStart2 m ++ '-' :: padStart2 d)))) ∧
    parseToISODate "3/7/2026" = some "2026-03-07" ∧
    parseToISODate "March 2026" = some "March 2026") :=
  ⟨by decide, claim8_amended_date_normalizer "3/7/2026" (by decide)⟩

end SFX
